import Mathlib

/-!
Shallow embedding of the project-financials analytics engine: the
`analyzeData` two-pass aggregator, its filter evaluation, the
`addRiskScoring` customer risk classifier, the DAS+ calculator and the
`generateCSV` consultants serializer from `server.js`.

Modelling conventions:
* JavaScript strings are `List Char`; `toLowerCase`, `trim`,
  `replace(/\s+/g, ' ')`, `split(',')` and `includes` are re-implemented
  below on that representation.
* JavaScript numbers are `ℚ`.  The engine only adds, multiplies, divides
  and compares finitely many finite values, so exact rationals model the
  float arithmetic of every quantity a claim talks about; `toFixed(n)`
  followed by `parseFloat` is modelled by decimal rounding `toFixed`.
* Every field access in the source goes through the `|| default` idiom
  (`row['Customer'] || ''`, `parseFloat(row['Budget Hrs']) || 0`, ...),
  so a `Row` carries the already-defaulted value: an absent or `''`
  customer is `[]`, a non-numeric or absent hours field is `0`.
* Display-only string formatting (the `variance` string stored in
  project details, CSV number rendering) is kept out of the accumulator
  records where no computation reads it back.
-/

namespace Financials

abbrev Str := List Char

/-- `String.prototype.toLowerCase` on the ASCII names the data uses. -/
def jsToLower (s : Str) : Str := s.map Char.toLower

/-- `String.prototype.trim`. -/
def jsTrim (s : Str) : Str :=
  ((s.dropWhile Char.isWhitespace).reverse.dropWhile Char.isWhitespace).reverse

/-- `replace(/\s+/g, ' ')`: collapse every whitespace run to one space.
The boolean argument records whether we are inside a run. -/
def collapseWS : Bool → Str → Str
  | _, [] => []
  | inRun, c :: cs =>
    if c.isWhitespace then
      if inRun then collapseWS true cs else ' ' :: collapseWS true cs
    else c :: collapseWS false cs

/-- `name.trim().replace(/\s+/g, ' ')` — the per-name normalization. -/
def normalizeName (s : Str) : Str := collapseWS false (jsTrim s)

/-- Does `s` start with `p`? (helper for the substring test). -/
def startsWith : Str → Str → Bool
  | _, [] => true
  | [], _ :: _ => false
  | c :: cs, d :: ds => decide (c = d) && startsWith cs ds

/-- `hay.includes(needle)` — substring containment. -/
def containsSub : Str → Str → Bool
  | [], needle => needle.isEmpty
  | hay@(_ :: t), needle => startsWith hay needle || containsSub t needle

/-- `String.prototype.split(',')`. -/
def splitComma : Str → List Str
  | [] => [[]]
  | c :: rest =>
    let r := splitComma rest
    if c = ',' then [] :: r
    else
      match r with
      | [] => [[c]]
      | h :: t => (c :: h) :: t

/-- `raw.split(',').map(normalize).filter(n => n.length > 1)` — the
normalized multi-name list of a resources / solution-architect field. -/
def splitNames (raw : Str) : List Str :=
  ((splitComma raw).map normalizeName).filter (fun n => 1 < n.length)

/-- One input row, fields already read through the source's `|| default`
defaults (absent text fields are `[]`, non-numeric hours are `0`). -/
structure Row where
  jobNumber : Str
  jobDescription : Str
  customer : Str
  budgetHrs : ℚ
  actualHrs : ℚ
  resources : Str
  solutionArchitect : Str
  status : Str
  completion : ℚ
  deriving DecidableEq

/-- One exclusion rule: (consultant, job number). -/
structure Exclusion where
  consultant : Str
  project : Str
  deriving DecidableEq

/-- The filter set.  A `null` and an empty allow-list behave identically
in the source (`filters.engineers && filters.engineers.length > 0`), so
both are the empty list here. -/
structure Filters where
  engineers : List Str
  solutionArchitects : List Str
  exclusions : List Exclusion
  deriving DecidableEq

/-- One allow-list entry test: case-insensitive (after lowering and
trimming) equality, or substring containment in either direction. -/
def nameMatch (entry nm : Str) : Bool :=
  let e := jsTrim (jsToLower entry)
  let n := jsTrim (jsToLower nm)
  decide (e = n) || containsSub n e || containsSub e n

/-- The allow-list filter applied to both the engineer list and the SA
list (the source inlines the identical test twice). -/
def passesAllowList (allowList : List Str) (nm : Str) : Bool :=
  allowList.isEmpty || allowList.any (fun entry => nameMatch entry nm)

/-- The exclusions test: exact (lower-cased, trimmed) consultant match
and exact trimmed job-number match. -/
def isExcluded (exclusions : List Exclusion) (consultant jobNumber : Str) : Bool :=
  exclusions.any (fun ex =>
    decide (jsTrim (jsToLower ex.consultant) = jsTrim (jsToLower consultant)) &&
    decide (jsTrim ex.project = jsTrim jobNumber))

/-- The consultants of a row that actually contribute in pass 1: the
row must have a nonempty resources field and positive budget, and each
normalized name must pass the engineer allow-list and not be excluded. -/
def acceptedConsultants (f : Filters) (row : Row) : List Str :=
  if !row.resources.isEmpty && decide (0 < row.budgetHrs) then
    (splitNames row.resources).filter (fun c =>
      passesAllowList f.engineers c && !(isExcluded f.exclusions c row.jobNumber))
  else []

/-- The solution architects of a row that contribute in pass 1 (the
exclusions list is never applied to SAs). -/
def acceptedSAs (f : Filters) (row : Row) : List Str :=
  if !row.solutionArchitect.isEmpty && !(jsTrim row.solutionArchitect).isEmpty &&
      decide (0 < row.budgetHrs) then
    (splitNames row.solutionArchitect).filter (passesAllowList f.solutionArchitects)
  else []

/-- A project-detail snapshot (the display-only `variance` string of the
source is not stored; nothing the claims touch reads it back). -/
structure Detail where
  jobNumber : Str
  description : Str
  customer : Str
  budgetHrs : ℚ
  actualHrs : ℚ
  status : Str
  completion : ℚ
  deriving DecidableEq

def mkDetail (row : Row) : Detail :=
  { jobNumber := row.jobNumber, description := row.jobDescription
    customer := row.customer, budgetHrs := row.budgetHrs
    actualHrs := row.actualHrs, status := row.status
    completion := row.completion }

/-- `(actualHrs - budgetHrs) / budgetHrs`. -/
def variance (actualHrs budgetHrs : ℚ) : ℚ := (actualHrs - budgetHrs) / budgetHrs

structure ConsultantAcc where
  projects : ℕ
  totalHours : ℚ
  withinBudget : ℕ
  overBudget : ℕ
  projectDetails : List Detail
  deriving DecidableEq

def consInit : ConsultantAcc :=
  { projects := 0, totalHours := 0, withinBudget := 0, overBudget := 0, projectDetails := [] }

/-- One accepted consultant contribution of one row. -/
def consAdd (st : ℚ) (row : Row) (a : ConsultantAcc) : ConsultantAcc :=
  let v := variance row.actualHrs row.budgetHrs
  { projects := a.projects + 1
    totalHours := a.totalHours + row.actualHrs
    withinBudget := a.withinBudget + (if v ≤ st then 1 else 0)
    overBudget := a.overBudget + (if v ≤ st then 0 else 1)
    projectDetails := a.projectDetails ++ [mkDetail row] }

structure SAAcc where
  projects : ℕ
  totalBudgetedHours : ℚ
  totalActualHours : ℚ
  successfulProjects : ℕ
  projectDetails : List Detail
  deriving DecidableEq

def saInit : SAAcc :=
  { projects := 0, totalBudgetedHours := 0, totalActualHours := 0
    successfulProjects := 0, projectDetails := [] }

/-- One accepted solution-architect contribution of one row. -/
def saAdd (st : ℚ) (row : Row) (a : SAAcc) : SAAcc :=
  let v := variance row.actualHrs row.budgetHrs
  { projects := a.projects + 1
    totalBudgetedHours := a.totalBudgetedHours + row.budgetHrs
    totalActualHours := a.totalActualHours + row.actualHrs
    successfulProjects := a.successfulProjects + (if v ≤ st then 1 else 0)
    projectDetails := a.projectDetails ++ [mkDetail row] }

/-- String-keyed maps (JavaScript objects) as association lists; a new
key is appended, matching object insertion order. -/
abbrev AList (β : Type) := List (Str × β)

def hasKey {β : Type} (m : AList β) (k : Str) : Bool :=
  m.any (fun p => decide (p.1 = k))

def findVal {β : Type} : AList β → Str → Option β
  | [], _ => none
  | p :: t, k => if p.1 = k then some p.2 else findVal t k

/-- `if (!obj[k]) obj[k] = init; mutate obj[k]` — create on first
contribution, then update. -/
def updAdd {β : Type} (m : AList β) (k : Str) (init : β) (f : β → β) : AList β :=
  if hasKey m k then m.map (fun p => if p.1 = k then (p.1, f p.2) else p)
  else m ++ [(k, f init)]

/-- `Set.prototype.add` on a duplicate-free list. -/
def addToSet (l : List Str) (j : Str) : List Str :=
  if l.any (fun x => decide (x = j)) then l else l ++ [j]

structure Pass1State where
  consultants : AList ConsultantAcc
  solutionArchitects : AList SAAcc
  practiceProjects : List Str
  deriving DecidableEq

def pass1Init : Pass1State :=
  { consultants := [], solutionArchitects := [], practiceProjects := [] }

/-- Pass 1 on one row: fan the accepted consultants and SAs out into
their accumulators and mark the job number as a practice project when
any contribution was accepted. -/
def processRow1 (st : ℚ) (f : Filters) (s : Pass1State) (row : Row) : Pass1State :=
  let cs := acceptedConsultants f row
  let sas := acceptedSAs f row
  { consultants := cs.foldl (fun m c => updAdd m c consInit (consAdd st row)) s.consultants
    solutionArchitects :=
      sas.foldl (fun m a => updAdd m a saInit (saAdd st row)) s.solutionArchitects
    practiceProjects :=
      if !cs.isEmpty || !sas.isEmpty then addToSet s.practiceProjects row.jobNumber
      else s.practiceProjects }

def pass1 (st : ℚ) (f : Filters) (data : List Row) : Pass1State :=
  data.foldl (processRow1 st f) pass1Init

/-- `row['Customer'] || 'Unknown'` — pass 2 substitutes a placeholder
name for an absent or empty customer field. -/
def effCustomer (row : Row) : Str :=
  if row.customer.isEmpty then "Unknown".toList else row.customer

/-- The pass-2 guard: truthy (substituted) customer name, truthy when
trimmed, and positive budget. -/
def pass2Guard (row : Row) : Bool :=
  !(effCustomer row).isEmpty && !(jsTrim (effCustomer row)).isEmpty &&
    decide (0 < row.budgetHrs)

structure CustAcc where
  projects : ℕ
  totalBudgetHrs : ℚ
  totalActualHrs : ℚ
  totalVariance : ℚ
  withinBudget : ℕ
  overBudget : ℕ
  deriving DecidableEq

def custInit : CustAcc :=
  { projects := 0, totalBudgetHrs := 0, totalActualHrs := 0, totalVariance := 0
    withinBudget := 0, overBudget := 0 }

/-- One customer contribution of one row (identical for the company and
the practice map). -/
def custAdd (st : ℚ) (row : Row) (a : CustAcc) : CustAcc :=
  let v := variance row.actualHrs row.budgetHrs
  { projects := a.projects + 1
    totalBudgetHrs := a.totalBudgetHrs + row.budgetHrs
    totalActualHrs := a.totalActualHrs + row.actualHrs
    totalVariance := a.totalVariance + v * 100
    withinBudget := a.withinBudget + (if v ≤ st then 1 else 0)
    overBudget := a.overBudget + (if v ≤ st then 0 else 1) }

structure Pass2State where
  company : AList CustAcc
  practice : AList CustAcc
  deriving DecidableEq

def pass2Init : Pass2State := { company := [], practice := [] }

/-- Pass 2 on one row: accumulate into the company map unconditionally
(under the guard) and into the practice map when the job number was
marked practice in pass 1. -/
def processRow2 (st : ℚ) (practiceSet : List Str) (s : Pass2State) (row : Row) : Pass2State :=
  if pass2Guard row then
    { company := updAdd s.company (effCustomer row) custInit (custAdd st row)
      practice :=
        if practiceSet.any (fun x => decide (x = row.jobNumber)) then
          updAdd s.practice (effCustomer row) custInit (custAdd st row)
        else s.practice }
  else s

def pass2 (st : ℚ) (practiceSet : List Str) (data : List Row) : Pass2State :=
  data.foldl (processRow2 st practiceSet) pass2Init

/-- Threshold configuration (only the field the aggregator reads). -/
structure Config where
  success_threshold : Option ℚ
  deriving DecidableEq

/-- `config.thresholds?.success_threshold || 0.3` — an absent, null or
falsy (zero) configured value falls back to the default `0.3`. -/
def effectiveSuccessThreshold (cfg : Config) : ℚ :=
  match cfg.success_threshold with
  | none => 3 / 10
  | some v => if v = 0 then 3 / 10 else v

/-- `x.toFixed(d)` re-parsed as a number: decimal rounding with
ECMAScript's tie-to-larger rule (`round` is `⌊x + 1/2⌋`). -/
def toFixed (d : ℕ) (x : ℚ) : ℚ := (round (x * 10 ^ d) : ℤ) / 10 ^ d

structure ConsultantMetric where
  name : Str
  projects : ℕ
  hours : ℚ
  successRate : ℚ
  efficiencyScore : ℚ
  withinBudget : ℕ
  overBudget : ℕ
  projectDetails : List Detail
  deriving DecidableEq

def mkConsultantMetric (nm : Str) (c : ConsultantAcc) : ConsultantMetric :=
  let successRate := ((c.withinBudget : ℚ) / (c.projects : ℚ)) * 100
  { name := nm, projects := c.projects, hours := c.totalHours
    successRate := toFixed 1 successRate, efficiencyScore := toFixed 1 successRate
    withinBudget := c.withinBudget, overBudget := c.overBudget
    projectDetails := c.projectDetails }

structure SAMetric where
  name : Str
  projects : ℕ
  budgetedHours : ℚ
  actualHours : ℚ
  successRate : ℚ
  saVariance : ℚ
  projectDetails : List Detail
  deriving DecidableEq

def mkSAMetric (nm : Str) (a : SAAcc) : SAMetric :=
  { name := nm, projects := a.projects
    budgetedHours := a.totalBudgetedHours, actualHours := a.totalActualHours
    successRate := toFixed 1 (((a.successfulProjects : ℚ) / (a.projects : ℚ)) * 100)
    saVariance :=
      toFixed 1 (variance a.totalActualHours a.totalBudgetedHours * 100)
    projectDetails := a.projectDetails }

inductive RiskLevel
  | Low | Medium | High | Critical
  deriving DecidableEq

/-- `addRiskScoring`'s score accumulation: four sequential `if / else
if` contributions, exactly as in the source. -/
def addRiskScoring (successRate : ℚ) (projects : ℕ) (avgVariance : ℚ)
    (totalBudgetHrs : ℚ) : ℕ :=
  let riskScore : ℕ := 0
  let riskScore := riskScore +
    (if successRate < 50 then 4 else if successRate < 70 then 2
     else if successRate < 85 then 1 else 0)
  let riskScore := riskScore +
    (if 10 ≤ projects then 0 else if 5 ≤ projects then 1 else 2)
  let riskScore := riskScore +
    (if 50 < |avgVariance| then 3 else if 30 < |avgVariance| then 2
     else if 15 < |avgVariance| then 1 else 0)
  let riskScore := riskScore +
    (if 5000 < totalBudgetHrs then 1 else if 2000 < totalBudgetHrs then 0 else 1)
  riskScore

/-- The risk bucket of a score. -/
def riskLevelOf (riskScore : ℕ) : RiskLevel :=
  if riskScore ≤ 2 then .Low
  else if riskScore ≤ 5 then .Medium
  else if riskScore ≤ 8 then .High
  else .Critical

structure CustomerMetric where
  name : Str
  projects : ℕ
  successRate : ℚ
  avgVariance : ℚ
  totalBudgetHrs : ℚ
  totalActualHrs : ℚ
  withinBudget : ℕ
  overBudget : ℕ
  riskScore : ℕ
  riskLevel : RiskLevel
  deriving DecidableEq

/-- A customer metrics entry with its risk classification.  The source
risk-scores `parseFloat` of the `toFixed(1)` strings, hence the
`toFixed 1` rounding of `successRate` and `avgVariance` here;
`totalBudgetHrs` is passed through unrounded. -/
def mkCustomerMetric (nm : Str) (c : CustAcc) : CustomerMetric :=
  let successRate := toFixed 1 (((c.withinBudget : ℚ) / (c.projects : ℚ)) * 100)
  let avgVariance := toFixed 1 (c.totalVariance / (c.projects : ℚ))
  let score := addRiskScoring successRate c.projects avgVariance c.totalBudgetHrs
  { name := nm, projects := c.projects, successRate := successRate
    avgVariance := avgVariance, totalBudgetHrs := c.totalBudgetHrs
    totalActualHrs := c.totalActualHrs, withinBudget := c.withinBudget
    overBudget := c.overBudget, riskScore := score, riskLevel := riskLevelOf score }

/-- The per-project DAS+ score: budget-consumption ratio against the
(possibly forced) completion ratio, clamped to `[0, 1]`. -/
def dasScoreOf (p : Detail) : ℚ :=
  let budgetRatio := p.actualHrs / p.budgetHrs
  let completionRatio := p.completion
  let completionRatio :=
    if !p.status.isEmpty &&
        (containsSub (jsToLower p.status) "closed".toList ||
         containsSub (jsToLower p.status) "complete".toList) then (1 : ℚ)
    else if decide ((95 : ℚ) / 100 ≤ completionRatio) then 1
    else completionRatio
  let dasScore := 1 - |budgetRatio - completionRatio|
  max 0 (min 1 dasScore)

/-- Ascending insertion into a sorted list. -/
def insertAsc (x : ℚ) : List ℚ → List ℚ
  | [] => [x]
  | y :: ys => if x ≤ y then x :: y :: ys else y :: insertAsc x ys

/-- `scores.sort((a, b) => a - b)` — ascending numeric sort. -/
def sortAsc : List ℚ → List ℚ
  | [] => []
  | x :: xs => insertAsc x (sortAsc xs)

structure DASEntry where
  name : Str
  projects : ℕ
  avgDAS : ℚ
  medianDAS : ℚ
  lowCount : ℕ
  highCount : ℕ
  reviewCount : ℕ
  deriving DecidableEq

def mkDASEntry (nm : Str) (c : ConsultantAcc) : DASEntry :=
  let dasScores := c.projectDetails.map dasScoreOf
  let sortedScores := sortAsc dasScores
  { name := nm, projects := c.projects
    avgDAS := toFixed 3 (dasScores.sum / (dasScores.length : ℚ))
    medianDAS := toFixed 3 (sortedScores.getD (sortedScores.length / 2) 0)
    lowCount := (dasScores.filter (fun s => decide (s < 3 / 4))).length
    highCount := (dasScores.filter (fun s => decide (17 / 20 ≤ s))).length
    reviewCount :=
      (dasScores.filter (fun s => decide (3 / 10 ≤ s) && decide (s ≤ 9 / 10))).length }

/-- The analysis object (the fields the claims are about; the
display-order sorts of the result lists are not modelled, all claims
quantify over list members). -/
structure Analysis where
  totalProjects : ℕ
  consultants : List ConsultantMetric
  solutionArchitects : List SAMetric
  customersPractice : List CustomerMetric
  customersCompany : List CustomerMetric
  dasAnalysis : List DASEntry
  deriving DecidableEq

/-- `analyzeData(data, filters, config)`: two aggregation passes, then
the derived metric lists.  The company customer list keeps only
customers with at least 3 projects. -/
def analyzeData (data : List Row) (filters : Filters) (config : Config) : Analysis :=
  let st := effectiveSuccessThreshold config
  let p1 := pass1 st filters data
  let p2 := pass2 st p1.practiceProjects data
  { totalProjects := data.length
    consultants := p1.consultants.map (fun p => mkConsultantMetric p.1 p.2)
    solutionArchitects := p1.solutionArchitects.map (fun p => mkSAMetric p.1 p.2)
    customersPractice := p2.practice.map (fun p => mkCustomerMetric p.1 p.2)
    customersCompany :=
      (p2.company.map (fun p => mkCustomerMetric p.1 p.2)).filter
        (fun c => 3 ≤ c.projects)
    dasAnalysis := p1.consultants.map (fun p => mkDASEntry p.1 p.2) }

instance : Inhabited ConsultantAcc := ⟨consInit⟩

instance : Inhabited SAAcc := ⟨saInit⟩

instance : Inhabited CustAcc := ⟨custInit⟩

instance : Inhabited ConsultantMetric := ⟨mkConsultantMetric [] consInit⟩

/-- A row was accepted in pass 1 (at least one consultant or SA
contribution), i.e. the condition under which its job number is marked
as a practice project. -/
def RowAccepted (f : Filters) (row : Row) : Prop :=
  acceptedConsultants f row ≠ [] ∨ acceptedSAs f row ≠ []

/-- Occurrences of a name in a list (used to state the fan-out claim). -/
def countOcc (k : Str) : List Str → ℕ
  | [] => 0
  | c :: t => (if c = k then 1 else 0) + countOcc k t

/-- The allow-list rule in the specification's words: a null/empty list
passes everything; otherwise some entry, compared case-insensitively
after trimming, equals the name or is a substring of it or contains it. -/
def SpecAllowPass (allowList : List Str) (nm : Str) : Prop :=
  allowList = [] ∨ ∃ entry ∈ allowList,
    jsTrim (jsToLower entry) = jsTrim (jsToLower nm) ∨
    (∃ x y, jsTrim (jsToLower nm) = x ++ jsTrim (jsToLower entry) ++ y) ∨
    (∃ x y, jsTrim (jsToLower entry) = x ++ jsTrim (jsToLower nm) ++ y)

/-- The DAS+ per-project score in the specification's words: completion
forced to `1` when the status contains "closed" or "complete"
(case-insensitively) or the reported completion is at least `0.95`, and
`1 - |budgetRatio - completionRatio|` clamped to `[0, 1]`. -/
def specDasScore (p : Detail) : ℚ :=
  let completionRatio : ℚ :=
    if containsSub (jsToLower p.status) "closed".toList = true ∨
        containsSub (jsToLower p.status) "complete".toList = true ∨
        19 / 20 ≤ p.completion then 1
    else p.completion
  min 1 (max 0 (1 - |p.actualHrs / p.budgetHrs - completionRatio|))

/-- The claim-side decomposition of `addRiskScoring`: the success-rate
contribution. -/
def riskSuccessPart (successRate : ℚ) : ℕ :=
  if successRate < 50 then 4 else if successRate < 70 then 2
  else if successRate < 85 then 1 else 0

/-- The project-volume contribution. -/
def riskVolumePart (projects : ℕ) : ℕ :=
  if 10 ≤ projects then 0 else if 5 ≤ projects then 1 else 2

/-- The variance-consistency contribution. -/
def riskVariancePart (avgVariance : ℚ) : ℕ :=
  if 50 < |avgVariance| then 3 else if 30 < |avgVariance| then 2
  else if 15 < |avgVariance| then 1 else 0

/-- The budget-size contribution.  Note the strict `2000 <` bound: a
total budget of exactly 2000 falls into the final `+1` branch. -/
def riskBudgetPart (totalBudgetHrs : ℚ) : ℕ :=
  if 5000 < totalBudgetHrs then 1 else if 2000 < totalBudgetHrs then 0 else 1

/-- The per-consultant accumulator invariant behind the lazy-creation
claim: an accumulator holds at least one project and its counters and
detail list agree. -/
def ConsAccOK (a : ConsultantAcc) : Prop :=
  a.projects = a.withinBudget + a.overBudget ∧
  a.projectDetails.length = a.projects ∧ 1 ≤ a.projects

/- ### CSV export (`generateCSV`, `consultants` tab) and a standard CSV
reader used to state the round-trip claim. -/

/-- One already-rendered consultants-report row: the name, and the six
numeric columns as their decimal renderings. -/
structure ConsultantCSVRow where
  name : Str
  projects : Str
  hours : Str
  efficiencyScore : Str
  successRate : Str
  withinBudget : Str
  overBudget : Str
  deriving DecidableEq

/-- `"${value}"` — the serializer wraps the name in double quotes
unconditionally and does not double internal quotes. -/
def csvQuote (s : Str) : Str := '"' :: (s ++ ['"'])

/-- The plain columns of a record joined by commas, `\n`-terminated. -/
def joinPlain : List Str → Str
  | [] => ['\n']
  | [f] => f ++ ['\n']
  | f :: fs => f ++ ',' :: joinPlain fs

/-- One consultants-tab CSV line:
`"name",projects,hours,efficiency,successRate,withinBudget,overBudget`. -/
def consultantCSVLine (r : ConsultantCSVRow) : Str :=
  csvQuote r.name ++ ',' ::
    joinPlain [r.projects, r.hours, r.efficiencyScore, r.successRate,
               r.withinBudget, r.overBudget]

def consultantsCSVHeader : Str :=
  "Consultant,Projects,Hours,Efficiency %,Success Rate %,Within Budget,Over Budget\n".toList

/-- `generateCSV(data, 'consultants')`: the header, then one line per row. -/
def generateCSVConsultants (rows : List ConsultantCSVRow) : Str :=
  rows.foldl (fun acc r => acc ++ consultantCSVLine r) consultantsCSVHeader

/-- Body of a quoted field under standard (RFC 4180) CSV quoting: a
doubled quote is a literal quote, a single quote ends the field. -/
def parseQuotedBody : Str → Option (Str × Str)
  | [] => none
  | c :: rest =>
    if c = '"' then
      match rest with
      | [] => some ([], [])
      | c2 :: rest2 =>
        if c2 = '"' then (parseQuotedBody rest2).map (fun p => ('"' :: p.1, p.2))
        else some ([], c2 :: rest2)
    else (parseQuotedBody rest).map (fun p => (c :: p.1, p.2))

/-- An unquoted field: everything up to the next comma or newline. -/
def upToSep : Str → Str × Str
  | [] => ([], [])
  | c :: rest =>
    if c = ',' ∨ c = '\n' then ([], c :: rest)
    else
      let p := upToSep rest
      (c :: p.1, p.2)

/-- One CSV field: quoted if it starts with a double quote, else plain. -/
def parseCSVField : Str → Option (Str × Str)
  | [] => some ([], [])
  | c :: rest => if c = '"' then parseQuotedBody rest else some (upToSep (c :: rest))

/-- One CSV record (fuelled recursion): fields separated by commas,
ended by a newline or the end of input; anything else after a field is
a quoting error. -/
def parseCSVRecordAux : ℕ → Str → Option (List Str × Str)
  | 0, _ => none
  | n + 1, s =>
    match parseCSVField s with
    | none => none
    | some (f, rest) =>
      match rest with
      | [] => some ([f], [])
      | c :: r =>
        if c = '\n' then some ([f], r)
        else if c = ',' then
          match parseCSVRecordAux n r with
          | some (fs, r2) => some (f :: fs, r2)
          | none => none
        else none

def parseCSVRecord (s : Str) : Option (List Str × Str) :=
  parseCSVRecordAux (s.length + 1) s

def parseCSVAux : ℕ → Str → Option (List (List Str))
  | 0, s => if s.isEmpty then some [] else none
  | n + 1, s =>
    if s.isEmpty then some []
    else
      match parseCSVRecordAux (s.length + 1) s with
      | none => none
      | some (fs, rest) =>
        match parseCSVAux n rest with
        | some rs => some (fs :: rs)
        | none => none

/-- A full standard CSV text: a sequence of records. -/
def parseCSV (s : Str) : Option (List (List Str)) := parseCSVAux (s.length + 1) s

/-- A rendered numeric column: no separator, quote or newline characters
(decimal digit strings always satisfy this). -/
def PlainField (s : Str) : Prop := ',' ∉ s ∧ '"' ∉ s ∧ '\n' ∉ s

instance (s : Str) : Decidable (PlainField s) := by
  unfold PlainField
  infer_instance

/- ### Concrete fixtures used by closed statements and witnesses. -/

def emptyFilters : Filters := ⟨[], [], []⟩

def cfgNone : Config := ⟨none⟩

def cfgZero : Config := ⟨some 0⟩

/-- A plain successful row: budget 100, actual 120 (variance `0.2`). -/
def rowAnn : Row :=
  { jobNumber := "J1".toList, jobDescription := [], customer := "Acme".toList
    budgetHrs := 100, actualHrs := 120, resources := "Ann".toList
    solutionArchitect := [], status := "Open".toList, completion := 1 }

/-- A DAS+ fixture row: budget 10, completion 0.1, open status; its
DAS+ score is `1 - |a/10 - 1/10|`. -/
def dasRow (a : ℚ) : Row :=
  { jobNumber := "J1".toList, jobDescription := [], customer := "Acme".toList
    budgetHrs := 10, actualHrs := a, resources := "Al".toList
    solutionArchitect := [], status := "Open".toList, completion := 1 / 10 }

/-- Four projects with DAS+ scores `0.5, 0.2, 0.9, 0.7` (unsorted). -/
def dasRows : List Row := [dasRow 6, dasRow 9, dasRow 2, dasRow 4]

/-- A zero-budget row with positive actual hours and people attached. -/
def zeroBudgetRow : Row :=
  { jobNumber := "J0".toList, jobDescription := [], customer := "Acme".toList
    budgetHrs := 0, actualHrs := 5, resources := "Ann".toList
    solutionArchitect := "Sam Lee".toList, status := [], completion := 0 }

/-- A positive-budget row with an absent/empty customer field. -/
def noCustomerRow : Row :=
  { jobNumber := "J2".toList, jobDescription := [], customer := []
    budgetHrs := 1, actualHrs := 0, resources := [], solutionArchitect := []
    status := [], completion := 0 }

/-- Two co-assigned consultants, 10 actual hours. -/
def fanRow : Row :=
  { jobNumber := "J3".toList, jobDescription := [], customer := "Acme".toList
    budgetHrs := 10, actualHrs := 10, resources := "Ann, Bob".toList
    solutionArchitect := [], status := [], completion := 0 }

/-- A row whose sole consultant fails the allow-list and whose SA field
is empty. -/
def splitRow : Row :=
  { jobNumber := "J4".toList, jobDescription := [], customer := "Acme".toList
    budgetHrs := 10, actualHrs := 5, resources := "Bob Zed".toList
    solutionArchitect := [], status := [], completion := 0 }

/-- A filter set whose engineer allow-list does not match `splitRow`. -/
def aliceFilters : Filters := ⟨["Alice Q".toList], [], []⟩

def badCSVRow : ConsultantCSVRow :=
  { name := "Smith, John \"JS\"".toList, projects := "3".toList
    hours := "10".toList, efficiencyScore := "100.0".toList
    successRate := "100.0".toList, withinBudget := "3".toList
    overBudget := "0".toList }

def goodCSVRow1 : ConsultantCSVRow :=
  { name := "Smith, John".toList, projects := "3".toList
    hours := "10".toList, efficiencyScore := "100.0".toList
    successRate := "100.0".toList, withinBudget := "3".toList
    overBudget := "0".toList }

def goodCSVRow2 : ConsultantCSVRow :=
  { name := "Ann Lee".toList, projects := "1".toList
    hours := "5.5".toList, efficiencyScore := "0.0".toList
    successRate := "0.0".toList, withinBudget := "0".toList
    overBudget := "1".toList }

/-! ## General lemmas about the string and map primitives -/

theorem startsWith_iff (s p : Str) : startsWith s p = true ↔ ∃ r, s = p ++ r := by
  induction p generalizing s with
  | nil => simp [startsWith]
  | cons d ds ih =>
    cases s with
    | nil => simp [startsWith]
    | cons c cs => simp [startsWith, ih, List.cons_eq_cons, exists_and_left]

theorem containsSub_iff (h n : Str) : containsSub h n = true ↔ ∃ x y, h = x ++ n ++ y := by
  induction h with
  | nil =>
    simp only [containsSub, List.isEmpty_iff]
    constructor
    · rintro rfl
      exact ⟨[], [], rfl⟩
    · rintro ⟨x, y, hxy⟩
      rcases List.append_eq_nil.mp (List.append_eq_nil.mp hxy.symm).1 with ⟨-, h2⟩
      exact h2
  | cons c t ih =>
    simp only [containsSub, Bool.or_eq_true, startsWith_iff, ih]
    constructor
    · rintro (⟨r, hr⟩ | ⟨x, y, hxy⟩)
      · exact ⟨[], r, by simpa using hr⟩
      · exact ⟨c :: x, y, by simp [hxy]⟩
    · rintro ⟨x, y, hxy⟩
      cases x with
      | nil => exact Or.inl ⟨y, by simpa using hxy⟩
      | cons a as =>
        rw [List.cons_append, List.cons_append, List.cons_eq_cons] at hxy
        exact Or.inr ⟨as, y, by simp [hxy.2]⟩

theorem any_eq_iff_mem {l : List Str} {j : Str} :
    (l.any fun x => decide (x = j)) = true ↔ j ∈ l := by
  simp [List.any_eq_true]

theorem mem_addToSet {l : List Str} {j x : Str} :
    x ∈ addToSet l j ↔ x ∈ l ∨ x = j := by
  by_cases h : j ∈ l
  · rw [addToSet, if_pos (any_eq_iff_mem.mpr h)]
    constructor
    · exact Or.inl
    · rintro (hx | rfl)
      · exact hx
      · exact h
  · have hb : (l.any fun x => decide (x = j)) = false := by
      rw [Bool.eq_false_iff]
      exact fun hc => h (any_eq_iff_mem.mp hc)
    rw [addToSet, if_neg (by simp [hb])]
    simp

theorem hasKey_iff {β : Type} {m : AList β} {k : Str} :
    hasKey m k = true ↔ ∃ v, (k, v) ∈ m := by
  simp only [hasKey, List.any_eq_true, decide_eq_true_eq]
  constructor
  · rintro ⟨⟨a, b⟩, hm, rfl⟩
    exact ⟨b, hm⟩
  · rintro ⟨v, hv⟩
    exact ⟨(k, v), hv, rfl⟩

theorem findVal_isSome_of_hasKey {β : Type} {m : AList β} {k : Str} :
    hasKey m k = true → ∃ v, findVal m k = some v := by
  induction m with
  | nil => intro h; simp [hasKey] at h
  | cons p t ih =>
    intro h
    by_cases hp : p.1 = k
    · exact ⟨p.2, by simp only [findVal, if_pos hp]⟩
    · have ht : hasKey t k = true := by
        simp only [hasKey, List.any_cons, Bool.or_eq_true, decide_eq_true_eq] at h
        rcases h with h | h
        · exact absurd h hp
        · exact h
      simpa only [findVal, if_neg hp] using ih ht

theorem findVal_none_of_hasKey_false {β : Type} {m : AList β} {k : Str}
    (h : hasKey m k = false) : findVal m k = none := by
  induction m with
  | nil => rfl
  | cons p t ih =>
    simp only [hasKey, List.any_cons, Bool.or_eq_false_iff] at h
    have hp : ¬p.1 = k := by simpa using h.1
    simp only [findVal, if_neg hp]
    exact ih (by simp [hasKey, h.2])

theorem findVal_map_upd {β : Type} (f : β → β) (k : Str) (m : AList β) :
    findVal (m.map fun p => if p.1 = k then (p.1, f p.2) else p) k =
      (findVal m k).map f := by
  induction m with
  | nil => rfl
  | cons p t ih =>
    by_cases h : p.1 = k
    · simp [findVal, h]
    · simp [findVal, h, ih]

theorem findVal_map_upd_ne {β : Type} (f : β → β) {k k' : Str} (h : k' ≠ k)
    (m : AList β) :
    findVal (m.map fun p => if p.1 = k then (p.1, f p.2) else p) k' =
      findVal m k' := by
  induction m with
  | nil => rfl
  | cons p t ih =>
    by_cases hp : p.1 = k
    · by_cases hp' : p.1 = k'
      · exact absurd (hp' ▸ hp) h
      · simp only [List.map_cons, if_pos hp, findVal, ih]
        rw [if_neg (hp ▸ hp'), if_neg hp']
    · by_cases hp' : p.1 = k'
      · simp only [List.map_cons, if_neg hp, findVal, if_pos hp']
      · simp only [List.map_cons, if_neg hp, findVal, if_neg hp', ih]

theorem findVal_append_sing {β : Type} (m : AList β) (k k' : Str) (v : β) :
    findVal (m ++ [(k, v)]) k' =
      ((findVal m k').orElse fun _ => if k = k' then some v else none) := by
  induction m with
  | nil => simp [findVal]
  | cons p t ih =>
    by_cases hp : p.1 = k'
    · simp [findVal, hp, Option.orElse]
    · simp [findVal, hp, ih]

theorem findVal_updAdd_self {β : Type} (m : AList β) (k : Str) (init : β) (f : β → β) :
    findVal (updAdd m k init f) k = some (f ((findVal m k).getD init)) := by
  by_cases h : hasKey m k = true
  · rw [updAdd, if_pos h, findVal_map_upd]
    obtain ⟨v, hv⟩ := findVal_isSome_of_hasKey h
    rw [hv]
    rfl
  · have hn : findVal m k = none :=
      findVal_none_of_hasKey_false (by simpa using h)
    rw [updAdd, if_neg h, findVal_append_sing, hn]
    simp [Option.orElse]

theorem findVal_updAdd_ne {β : Type} {m : AList β} {k k' : Str} {init : β}
    {f : β → β} (h : k' ≠ k) :
    findVal (updAdd m k init f) k' = findVal m k' := by
  by_cases hk : hasKey m k = true
  · rw [updAdd, if_pos hk, findVal_map_upd_ne f h]
  · rw [updAdd, if_neg hk, findVal_append_sing, if_neg (fun e => h e.symm)]
    cases findVal m k' <;> simp [Option.orElse]

theorem hasKey_map_upd {β : Type} (f : β → β) (k k' : Str) (m : AList β) :
    hasKey (m.map fun p => if p.1 = k then (p.1, f p.2) else p) k' = hasKey m k' := by
  induction m with
  | nil => rfl
  | cons p t ih =>
    by_cases hp : p.1 = k <;> simp [hasKey, List.any_cons, hp] <;>
      simpa [hasKey] using congrArg (· = true) ih |> fun _ => by
        have := ih
        simp [hasKey] at this
        simp [this]

theorem hasKey_updAdd {β : Type} (m : AList β) (k k' : Str) (init : β) (f : β → β) :
    hasKey (updAdd m k init f) k' = true ↔ k' = k ∨ hasKey m k' = true := by
  by_cases h : hasKey m k = true
  · rw [updAdd, if_pos h, hasKey_map_upd]
    constructor
    · exact Or.inr
    · rintro (rfl | hk)
      · exact h
      · exact hk
  · rw [updAdd, if_neg h, hasKey, List.any_append]
    simp only [Bool.or_eq_true, List.any_cons, List.any_nil, Bool.or_false,
      decide_eq_true_eq]
    rw [hasKey]
    constructor
    · rintro (hk | hk)
      · exact Or.inr hk
      · exact Or.inl hk.symm
    · rintro (rfl | hk)
      · exact Or.inr rfl
      · exact Or.inl hk

/-! ## Lemmas about the accumulation folds -/

theorem hasKey_foldUpd {β : Type} (init : β) (f : β → β) (ks : List Str)
    (m : AList β) (k : Str) :
    hasKey (ks.foldl (fun m c => updAdd m c init f) m) k = true ↔
      hasKey m k = true ∨ k ∈ ks := by
  induction ks generalizing m with
  | nil => simp
  | cons c t ih =>
    rw [List.foldl_cons, ih, hasKey_updAdd]
    simp only [List.mem_cons]
    tauto

theorem findVal_foldUpd_not_mem {β : Type} {init : β} {f : β → β} {ks : List Str}
    {m : AList β} {k : Str} (h : k ∉ ks) :
    findVal (ks.foldl (fun m c => updAdd m c init f) m) k = findVal m k := by
  induction ks generalizing m with
  | nil => rfl
  | cons c t ih =>
    rw [List.foldl_cons, ih (fun hc => h (List.mem_cons_of_mem c hc)),
      findVal_updAdd_ne (fun e => h (by rw [e]; exact List.mem_cons_self c t))]

theorem countOcc_eq_zero_iff {k : Str} {ks : List Str} :
    countOcc k ks = 0 ↔ k ∉ ks := by
  induction ks with
  | nil => simp [countOcc]
  | cons c t ih =>
    by_cases hc : c = k
    · simp [countOcc, hc]
    · rw [countOcc, if_neg hc, Nat.zero_add, ih]
      simp only [List.mem_cons]
      constructor
      · rintro h (rfl | hm)
        · exact hc rfl
        · exact h hm
      · intro h hm
        exact h (Or.inr hm)

theorem findVal_foldUpd_countOcc_one {β : Type} {init : β} {f : β → β}
    {ks : List Str} {m : AList β} {k : Str} (h : countOcc k ks = 1) :
    findVal (ks.foldl (fun m c => updAdd m c init f) m) k =
      some (f ((findVal m k).getD init)) := by
  induction ks generalizing m with
  | nil => simp [countOcc] at h
  | cons c t ih =>
    by_cases hc : c = k
    · have ht : countOcc k t = 0 := by
        simp only [countOcc, if_pos hc] at h
        omega
      subst hc
      rw [List.foldl_cons, findVal_foldUpd_not_mem (countOcc_eq_zero_iff.mp ht),
        findVal_updAdd_self]
    · have ht : countOcc k t = 1 := by
        simp only [countOcc, if_neg hc] at h
        omega
      rw [List.foldl_cons, ih ht, findVal_updAdd_ne (fun e => hc e.symm)]

theorem forall_updAdd {β : Type} {P : β → Prop} {m : AList β} {k : Str}
    {init : β} {f : β → β} (hm : ∀ p ∈ m, P p.2) (hfi : P (f init))
    (hf : ∀ b, P b → P (f b)) :
    ∀ p ∈ updAdd m k init f, P p.2 := by
  intro p hp
  by_cases hk : hasKey m k = true
  · rw [updAdd, if_pos hk] at hp
    obtain ⟨q, hq, rfl⟩ := List.mem_map.mp hp
    by_cases h1 : q.1 = k
    · simpa [h1] using hf _ (hm q hq)
    · simpa [h1] using hm q hq
  · rw [updAdd, if_neg hk] at hp
    rcases List.mem_append.mp hp with h | h
    · exact hm p h
    · rcases List.mem_singleton.mp h with rfl
      exact hfi

theorem forall_foldUpd {β : Type} {P : β → Prop} {init : β} {f : β → β}
    (ks : List Str) (m : AList β) (hm : ∀ p ∈ m, P p.2) (hfi : P (f init))
    (hf : ∀ b, P b → P (f b)) :
    ∀ p ∈ ks.foldl (fun m c => updAdd m c init f) m, P p.2 := by
  induction ks generalizing m with
  | nil => exact hm
  | cons c t ih =>
    rw [List.foldl_cons]
    exact ih _ (forall_updAdd hm hfi hf)

/-! ## Per-row behaviour of the two passes -/

theorem acceptedConsultants_budget_zero {f : Filters} {row : Row}
    (h : row.budgetHrs = 0) : acceptedConsultants f row = [] := by
  simp [acceptedConsultants, h]

theorem acceptedSAs_budget_zero {f : Filters} {row : Row}
    (h : row.budgetHrs = 0) : acceptedSAs f row = [] := by
  simp [acceptedSAs, h]

theorem processRow1_budget_zero {st : ℚ} {f : Filters} {s : Pass1State} {row : Row}
    (h : row.budgetHrs = 0) : processRow1 st f s row = s := by
  simp [processRow1, acceptedConsultants_budget_zero h, acceptedSAs_budget_zero h]

theorem processRow2_budget_zero {st : ℚ} {ps : List Str} {s : Pass2State} {row : Row}
    (h : row.budgetHrs = 0) : processRow2 st ps s row = s := by
  simp [processRow2, pass2Guard, h]

/-- C1: a row whose budget-hours field parses to zero (or is
non-numeric, which the lenient `parseFloat(x) || 0` coerces to zero)
contributes nothing to any consultant accumulator, any SA accumulator,
or either customer map, even when its actual hours are positive:
removing such a row from anywhere in the data set leaves both
aggregation passes unchanged.  Consequently the variance expression
`(actualHrs - budgetHrs) / budgetHrs` is only ever evaluated for rows
that passed the `budgetHrs > 0` guard, so its division-by-zero case is
unreachable. -/
theorem budget_zero_rows_contribute_nothing (st : ℚ) (f : Filters) (ps : List Str)
    (data1 data2 : List Row) (row : Row) (h : row.budgetHrs = 0) :
    pass1 st f (data1 ++ row :: data2) = pass1 st f (data1 ++ data2) ∧
    pass2 st ps (data1 ++ row :: data2) = pass2 st ps (data1 ++ data2) := by
  constructor
  · unfold pass1
    rw [List.foldl_append, List.foldl_append, List.foldl_cons,
      processRow1_budget_zero h]
  · unfold pass2
    rw [List.foldl_append, List.foldl_append, List.foldl_cons,
      processRow2_budget_zero h]

/-- Witness for C1 at a concrete zero-budget row with positive actual
hours, an attached consultant and an attached SA. -/
theorem budget_zero_rows_contribute_nothing_witness :
    pass1 (3 / 10) emptyFilters ([] ++ zeroBudgetRow :: []) =
        pass1 (3 / 10) emptyFilters ([] ++ []) ∧
    pass2 (3 / 10) [] ([] ++ zeroBudgetRow :: []) = pass2 (3 / 10) [] ([] ++ []) :=
  budget_zero_rows_contribute_nothing (3 / 10) emptyFilters [] [] [] zeroBudgetRow rfl

/-! ## Allow-list matching -/

/-- C3: the allow-list rule.  A null/empty list admits every name (no
restriction, never "exclude everyone"); otherwise a name passes iff
some entry, compared case-insensitively after trimming, equals the
name, is a substring of it, or contains it.  The singleton list
`["Jane Doe"]` admits `"Jane Doe Jr"` and `"Jane"` but not
`"John Doe"`.  The source inlines the identical test for the engineer
and the SA list, both modelled by `passesAllowList`. -/
theorem passesAllowList_spec :
    (∀ (allowList : List Str) (nm : Str),
      passesAllowList allowList nm = true ↔ SpecAllowPass allowList nm) ∧
    passesAllowList ["Jane Doe".toList] "Jane Doe Jr".toList = true ∧
    passesAllowList ["Jane Doe".toList] "Jane".toList = true ∧
    passesAllowList ["Jane Doe".toList] "John Doe".toList = false := by
  refine ⟨fun allowList nm => ?_, by decide, by decide, by decide⟩
  simp only [passesAllowList, SpecAllowPass, Bool.or_eq_true, List.isEmpty_iff,
    List.any_eq_true, nameMatch, decide_eq_true_eq, containsSub_iff, or_assoc]

/-! ## Customer risk scoring -/

/-- Counterexample to C4 as stated: at `successRate = 100`,
`projects = 10`, `avgVariance = 0` the first three contributions are
all zero, and the claim asserts that `totalBudgetHrs` exactly 2000
contributes `+0`, which would force a total score of 0; the code's
strict `totalBudget > 2000` comparison puts 2000 in the `else +1`
branch, so the score is 1. -/
theorem addRiskScoring_at_2000 : addRiskScoring 100 10 0 2000 = 1 := by
  norm_num [addRiskScoring]

/-- C4 (amended): the risk score is the sum of the four stated integer
contributions and the level buckets are `≤2` Low, `≤5` Medium, `≤8`
High, else Critical — with the one boundary correction that
`totalBudgetHrs` exactly 2000 contributes `+1` (the `+0` band is
`2000 < x ≤ 5000`, exclusive at 2000, inclusive at 5000); all the other
claimed boundaries hold as stated (`successRate = 50` gives `+2`,
`avgVariance` boundaries are strict, `totalBudgetHrs = 5000` gives
`+0`). -/
theorem addRiskScoring_spec :
    (∀ (s : ℚ) (p : ℕ) (v b : ℚ),
      addRiskScoring s p v b =
        riskSuccessPart s + riskVolumePart p + riskVariancePart v + riskBudgetPart b) ∧
    riskSuccessPart 50 = 2 ∧ riskSuccessPart 70 = 1 ∧ riskSuccessPart 85 = 0 ∧
    riskVariancePart 15 = 0 ∧ riskVariancePart 30 = 1 ∧ riskVariancePart 50 = 2 ∧
    riskVariancePart (-20) = 1 ∧
    riskBudgetPart 2000 = 1 ∧ riskBudgetPart 2001 = 0 ∧ riskBudgetPart 5000 = 0 ∧
    riskBudgetPart 5001 = 1 ∧
    riskLevelOf 2 = RiskLevel.Low ∧ riskLevelOf 3 = RiskLevel.Medium ∧
    riskLevelOf 5 = RiskLevel.Medium ∧ riskLevelOf 6 = RiskLevel.High ∧
    riskLevelOf 8 = RiskLevel.High ∧ riskLevelOf 9 = RiskLevel.Critical ∧
    (∀ sc : ℕ, riskLevelOf sc =
      if sc ≤ 2 then RiskLevel.Low else if sc ≤ 5 then RiskLevel.Medium
      else if sc ≤ 8 then RiskLevel.High else RiskLevel.Critical) := by
  refine ⟨fun s p v b => ?_, by norm_num [riskSuccessPart],
    by norm_num [riskSuccessPart], by norm_num [riskSuccessPart],
    by norm_num [riskVariancePart], by norm_num [riskVariancePart],
    by norm_num [riskVariancePart], by norm_num [riskVariancePart, abs_of_nonpos],
    by norm_num [riskBudgetPart], by norm_num [riskBudgetPart],
    by norm_num [riskBudgetPart], by norm_num [riskBudgetPart],
    by norm_num [riskLevelOf], by norm_num [riskLevelOf], by norm_num [riskLevelOf],
    by norm_num [riskLevelOf], by norm_num [riskLevelOf], by norm_num [riskLevelOf],
    fun sc => rfl⟩
  simp [addRiskScoring, riskSuccessPart, riskVolumePart, riskVariancePart,
    riskBudgetPart]

/-! ## Practice classification and the customer maps -/

theorem isEmpty_false_of_ne_nil {α : Type} {l : List α} (h : l ≠ []) :
    l.isEmpty = false := by
  cases l with
  | nil => exact absurd rfl h
  | cons a t => rfl

theorem mem_practice_processRow1 (st : ℚ) (f : Filters) (s : Pass1State)
    (row : Row) (j : Str) :
    j ∈ (processRow1 st f s row).practiceProjects ↔
      j ∈ s.practiceProjects ∨ (row.jobNumber = j ∧ RowAccepted f row) := by
  simp only [processRow1]
  by_cases hc : acceptedConsultants f row = []
  · by_cases hs : acceptedSAs f row = []
    · rw [if_neg (by rw [hc, hs]; decide)]
      have : ¬RowAccepted f row := by
        rintro (h | h) <;> [exact h hc; exact h hs]
      simp [this]
    · rw [if_pos (by rw [isEmpty_false_of_ne_nil hs]; simp), mem_addToSet]
      have : RowAccepted f row := Or.inr hs
      simp [this, eq_comm]
  · rw [if_pos (by rw [isEmpty_false_of_ne_nil hc]; simp), mem_addToSet]
    have : RowAccepted f row := Or.inl hc
    simp [this, eq_comm]

theorem practice_foldl_char (st : ℚ) (f : Filters) (data : List Row)
    (s : Pass1State) (j : Str) :
    j ∈ (data.foldl (processRow1 st f) s).practiceProjects ↔
      j ∈ s.practiceProjects ∨
        ∃ row ∈ data, row.jobNumber = j ∧ RowAccepted f row := by
  induction data generalizing s with
  | nil => simp
  | cons r t ih =>
    rw [List.foldl_cons, ih, mem_practice_processRow1, or_assoc]
    have hsplit : (∃ row ∈ r :: t, row.jobNumber = j ∧ RowAccepted f row) ↔
        ((r.jobNumber = j ∧ RowAccepted f r) ∨
          ∃ row ∈ t, row.jobNumber = j ∧ RowAccepted f row) := by
      simp [List.mem_cons, or_and_right, exists_or]
    rw [hsplit]

theorem hasKey_processRow2_company (st : ℚ) (ps : List Str) (s : Pass2State)
    (row : Row) (k : Str) :
    hasKey (processRow2 st ps s row).company k = true ↔
      (pass2Guard row = true ∧ effCustomer row = k) ∨
        hasKey s.company k = true := by
  by_cases hg : pass2Guard row = true
  · simp only [processRow2, if_pos hg]
    rw [hasKey_updAdd]
    constructor
    · rintro (rfl | h)
      · exact Or.inl ⟨hg, rfl⟩
      · exact Or.inr h
    · rintro (⟨-, rfl⟩ | h)
      · exact Or.inl rfl
      · exact Or.inr h
  · simp only [processRow2, if_neg hg]
    constructor
    · exact Or.inr
    · rintro (⟨hgg, -⟩ | h)
      · exact absurd hgg hg
      · exact h

theorem hasKey_processRow2_practice (st : ℚ) (ps : List Str) (s : Pass2State)
    (row : Row) (k : Str) :
    hasKey (processRow2 st ps s row).practice k = true ↔
      (pass2Guard row = true ∧ effCustomer row = k ∧ row.jobNumber ∈ ps) ∨
        hasKey s.practice k = true := by
  by_cases hg : pass2Guard row = true
  · simp only [processRow2, if_pos hg]
    by_cases hm : row.jobNumber ∈ ps
    · rw [if_pos (any_eq_iff_mem.mpr hm), hasKey_updAdd]
      constructor
      · rintro (rfl | h)
        · exact Or.inl ⟨hg, rfl, hm⟩
        · exact Or.inr h
      · rintro (⟨-, rfl, -⟩ | h)
        · exact Or.inl rfl
        · exact Or.inr h
    · have hb : (ps.any fun x => decide (x = row.jobNumber)) = false := by
        rw [Bool.eq_false_iff]
        exact fun hc => hm (any_eq_iff_mem.mp hc)
      rw [if_neg (by simp [hb])]
      constructor
      · exact Or.inr
      · rintro (⟨-, -, hmem⟩ | h)
        · exact absurd hmem hm
        · exact h
  · simp only [processRow2, if_neg hg]
    constructor
    · exact Or.inr
    · rintro (⟨hgg, -⟩ | h)
      · exact absurd hgg hg
      · exact h

theorem company_foldl_char (st : ℚ) (ps : List Str) (data : List Row)
    (s : Pass2State) (k : Str) :
    hasKey (data.foldl (processRow2 st ps) s).company k = true ↔
      hasKey s.company k = true ∨
        ∃ row ∈ data, pass2Guard row = true ∧ effCustomer row = k := by
  induction data generalizing s with
  | nil => simp
  | cons r t ih =>
    rw [List.foldl_cons, ih, hasKey_processRow2_company]
    have hsplit : (∃ row ∈ r :: t, pass2Guard row = true ∧ effCustomer row = k) ↔
        ((pass2Guard r = true ∧ effCustomer r = k) ∨
          ∃ row ∈ t, pass2Guard row = true ∧ effCustomer row = k) := by
      simp [List.mem_cons, or_and_right, exists_or]
    rw [hsplit]
    tauto

theorem practiceMap_foldl_char (st : ℚ) (ps : List Str) (data : List Row)
    (s : Pass2State) (k : Str) :
    hasKey (data.foldl (processRow2 st ps) s).practice k = true ↔
      hasKey s.practice k = true ∨
        ∃ row ∈ data,
          pass2Guard row = true ∧ effCustomer row = k ∧ row.jobNumber ∈ ps := by
  induction data generalizing s with
  | nil => simp
  | cons r t ih =>
    rw [List.foldl_cons, ih, hasKey_processRow2_practice]
    have hsplit : (∃ row ∈ r :: t,
        pass2Guard row = true ∧ effCustomer row = k ∧ row.jobNumber ∈ ps) ↔
        ((pass2Guard r = true ∧ effCustomer r = k ∧ r.jobNumber ∈ ps) ∨
          ∃ row ∈ t,
            pass2Guard row = true ∧ effCustomer row = k ∧ row.jobNumber ∈ ps) := by
      simp [List.mem_cons, or_and_right, exists_or]
    rw [hsplit]
    tauto

/-- C2: a job number is marked practice iff some row bearing it had an
accepted (allow-list-passing, non-excluded) consultant or an accepted
SA contribution in pass 1; in pass 2 a customer name has a company-map
entry iff some guarded row (truthy customer after the `'Unknown'`
substitution, positive budget) carries it, and a practice-map entry iff
additionally that row's job number was marked practice.  Concretely,
for the one-row data set whose sole consultant fails the engineer
allow-list and whose SA field is empty, the customer is in the company
map, no job is marked practice, and the customer is absent from the
practice map. -/
theorem practice_classification_spec (st : ℚ) (f : Filters) (data : List Row) :
    (∀ j, j ∈ (pass1 st f data).practiceProjects ↔
      ∃ row ∈ data, row.jobNumber = j ∧ RowAccepted f row) ∧
    (∀ k, hasKey (pass2 st (pass1 st f data).practiceProjects data).company k = true ↔
      ∃ row ∈ data, pass2Guard row = true ∧ effCustomer row = k) ∧
    (∀ k, hasKey (pass2 st (pass1 st f data).practiceProjects data).practice k = true ↔
      ∃ row ∈ data, pass2Guard row = true ∧ effCustomer row = k ∧
        row.jobNumber ∈ (pass1 st f data).practiceProjects) ∧
    (hasKey (pass2 (3 / 10) (pass1 (3 / 10) aliceFilters [splitRow]).practiceProjects
        [splitRow]).company "Acme".toList = true ∧
      (pass1 (3 / 10) aliceFilters [splitRow]).practiceProjects = [] ∧
      hasKey (pass2 (3 / 10) (pass1 (3 / 10) aliceFilters [splitRow]).practiceProjects
        [splitRow]).practice "Acme".toList = false) := by
  refine ⟨fun j => ?_, fun k => ?_, fun k => ?_, ?_, ?_, ?_⟩
  · rw [pass1, practice_foldl_char]
    simp [pass1Init]
  · rw [pass2, company_foldl_char]
    simp [pass2Init, hasKey]
  · rw [pass2, practiceMap_foldl_char]
    simp [pass2Init, hasKey]
  · norm_num +decide [pass1, pass2, pass1Init, pass2Init, processRow1, processRow2,
      acceptedConsultants, acceptedSAs, splitNames, splitComma, normalizeName,
      jsTrim, collapseWS, passesAllowList, isExcluded, nameMatch, jsToLower,
      containsSub, startsWith, updAdd, hasKey, addToSet, pass2Guard, effCustomer,
      splitRow, aliceFilters]
  · norm_num +decide [pass1, pass1Init, processRow1, acceptedConsultants,
      acceptedSAs, splitNames, splitComma, normalizeName, jsTrim, collapseWS,
      passesAllowList, isExcluded, nameMatch, jsToLower, containsSub, startsWith,
      addToSet, splitRow, aliceFilters]
  · norm_num +decide [pass1, pass2, pass1Init, pass2Init, processRow1, processRow2,
      acceptedConsultants, acceptedSAs, splitNames, splitComma, normalizeName,
      jsTrim, collapseWS, passesAllowList, isExcluded, nameMatch, jsToLower,
      containsSub, startsWith, updAdd, hasKey, addToSet, pass2Guard, effCustomer,
      splitRow, aliceFilters]

/-! ## Fan-out without hour-splitting -/

/-- C6: every filter-passing consultant listed on a row receives an
independent contribution crediting the row's full actual hours.  For a
name occurring once among the row's accepted consultants, processing
the row updates exactly that name's accumulator by one `consAdd`
contribution, and `consAdd` adds the full `actualHrs` of the row (and
one project) — hours are never split across co-assigned consultants. -/
theorem fanout_full_hours (st : ℚ) (f : Filters) (s : Pass1State) (row : Row)
    (c : Str) (h : countOcc c (acceptedConsultants f row) = 1) :
    findVal (processRow1 st f s row).consultants c =
      some (consAdd st row ((findVal s.consultants c).getD consInit)) ∧
    ∀ a : ConsultantAcc,
      (consAdd st row a).totalHours = a.totalHours + row.actualHrs ∧
      (consAdd st row a).projects = a.projects + 1 := by
  constructor
  · simp only [processRow1]
    exact findVal_foldUpd_countOcc_one h
  · intro a
    exact ⟨rfl, rfl⟩

/-- Witness for C6 at the concrete row with resources `"Ann, Bob"` and
10 actual hours: both consultants' accumulators receive the full
10 hours. -/
theorem fanout_full_hours_witness :
    (findVal (processRow1 (3 / 10) emptyFilters pass1Init fanRow).consultants
        "Ann".toList =
      some (consAdd (3 / 10) fanRow
        ((findVal pass1Init.consultants "Ann".toList).getD consInit))) ∧
    (findVal (processRow1 (3 / 10) emptyFilters pass1Init fanRow).consultants
        "Bob".toList =
      some (consAdd (3 / 10) fanRow
        ((findVal pass1Init.consultants "Bob".toList).getD consInit))) ∧
    (consAdd (3 / 10) fanRow consInit).totalHours = 10 := by
  have hAnn : countOcc "Ann".toList (acceptedConsultants emptyFilters fanRow) = 1 := by
    norm_num +decide [acceptedConsultants, splitNames, splitComma, normalizeName,
      jsTrim, collapseWS, passesAllowList, isExcluded, nameMatch, jsToLower,
      containsSub, startsWith, countOcc, fanRow, emptyFilters]
  have hBob : countOcc "Bob".toList (acceptedConsultants emptyFilters fanRow) = 1 := by
    norm_num +decide [acceptedConsultants, splitNames, splitComma, normalizeName,
      jsTrim, collapseWS, passesAllowList, isExcluded, nameMatch, jsToLower,
      containsSub, startsWith, countOcc, fanRow, emptyFilters]
  refine ⟨(fanout_full_hours (3 / 10) emptyFilters pass1Init fanRow "Ann".toList hAnn).1,
    (fanout_full_hours (3 / 10) emptyFilters pass1Init fanRow "Bob".toList hBob).1, ?_⟩
  norm_num [consAdd, consInit, fanRow]

/-! ## Lazy accumulator creation and counter consistency -/

theorem consAdd_preserves_OK (st : ℚ) (row : Row) {a : ConsultantAcc}
    (h : ConsAccOK a) : ConsAccOK (consAdd st row a) := by
  obtain ⟨h1, h2, h3⟩ := h
  refine ⟨?_, ?_, ?_⟩
  · simp only [consAdd]
    by_cases hv : variance row.actualHrs row.budgetHrs ≤ st <;> simp [hv] <;> omega
  · simp [consAdd, List.length_append, h2]
  · simp only [consAdd]
    omega

theorem consAdd_init_OK (st : ℚ) (row : Row) : ConsAccOK (consAdd st row consInit) := by
  refine ⟨?_, ?_, ?_⟩
  · simp only [consAdd, consInit]
    by_cases hv : variance row.actualHrs row.budgetHrs ≤ st <;> simp [hv]
  · simp [consAdd, consInit]
  · simp [consAdd, consInit]

theorem pass1_consultants_OK (st : ℚ) (f : Filters) (data : List Row) :
    ∀ p ∈ (pass1 st f data).consultants, ConsAccOK p.2 := by
  suffices h : ∀ (l : List Row) (s : Pass1State),
      (∀ p ∈ s.consultants, ConsAccOK p.2) →
      ∀ p ∈ (l.foldl (processRow1 st f) s).consultants, ConsAccOK p.2 by
    exact h data pass1Init (by simp [pass1Init])
  intro l
  induction l with
  | nil => exact fun s hs => hs
  | cons r t ih =>
    intro s hs
    rw [List.foldl_cons]
    apply ih
    simp only [processRow1]
    exact forall_foldUpd _ _ hs (consAdd_init_OK st r)
      (fun b hb => consAdd_preserves_OK st r hb)

/-- C9: every consultant entry of the analysis output exists only
because of at least one accepted contribution: `projects ≥ 1`,
`projects = withinBudget + overBudget`, and `projects` equals the
length of the project-detail list; the DAS+ entries inherit the same
positive project count, so every division in the derived metrics has a
positive denominator. -/
theorem lazy_accumulator_invariant (data : List Row) (f : Filters) (cfg : Config) :
    (∀ m ∈ (analyzeData data f cfg).consultants,
      1 ≤ m.projects ∧ m.projects = m.withinBudget + m.overBudget ∧
        m.projectDetails.length = m.projects) ∧
    (∀ e ∈ (analyzeData data f cfg).dasAnalysis, 1 ≤ e.projects) := by
  constructor
  · intro m hm
    simp only [analyzeData] at hm
    obtain ⟨p, hp, rfl⟩ := List.mem_map.mp hm
    obtain ⟨h1, h2, h3⟩ := pass1_consultants_OK _ _ _ p hp
    exact ⟨h3, h1, h2⟩
  · intro e he
    simp only [analyzeData] at he
    obtain ⟨p, hp, rfl⟩ := List.mem_map.mp he
    obtain ⟨-, -, h3⟩ := pass1_consultants_OK _ _ _ p hp
    exact h3

/-- The single-row analysis used by the C9 witness, evaluated. -/
theorem annConsultants_eq :
    (analyzeData [rowAnn] emptyFilters cfgNone).consultants =
      [mkConsultantMetric "Ann".toList ⟨1, 120, 1, 0, [mkDetail rowAnn]⟩] := by
  norm_num +decide [analyzeData, pass1, pass1Init, pass2, pass2Init, processRow1,
    acceptedConsultants, acceptedSAs, splitNames, splitComma, normalizeName,
    jsTrim, collapseWS, passesAllowList, isExcluded, nameMatch, jsToLower,
    containsSub, startsWith, updAdd, hasKey, addToSet, consInit, consAdd,
    variance, effectiveSuccessThreshold, cfgNone, emptyFilters, rowAnn]

/-- Witness for C9 at the single-row data set `[rowAnn]`. -/
theorem lazy_accumulator_invariant_witness :
    1 ≤ (mkConsultantMetric "Ann".toList ⟨1, 120, 1, 0, [mkDetail rowAnn]⟩).projects ∧
    (mkConsultantMetric "Ann".toList ⟨1, 120, 1, 0, [mkDetail rowAnn]⟩).projects =
      (mkConsultantMetric "Ann".toList ⟨1, 120, 1, 0, [mkDetail rowAnn]⟩).withinBudget +
        (mkConsultantMetric "Ann".toList ⟨1, 120, 1, 0, [mkDetail rowAnn]⟩).overBudget ∧
    (mkConsultantMetric "Ann".toList
        ⟨1, 120, 1, 0, [mkDetail rowAnn]⟩).projectDetails.length =
      (mkConsultantMetric "Ann".toList ⟨1, 120, 1, 0, [mkDetail rowAnn]⟩).projects := by
  have hm : mkConsultantMetric "Ann".toList ⟨1, 120, 1, 0, [mkDetail rowAnn]⟩ ∈
      (analyzeData [rowAnn] emptyFilters cfgNone).consultants := by
    rw [annConsultants_eq]
    exact List.mem_singleton.mpr rfl
  exact (lazy_accumulator_invariant [rowAnn] emptyFilters cfgNone).1 _ hm

/-! ## DAS+ scoring -/

theorem clamp_comm (x : ℚ) : max 0 (min 1 x) = min 1 (max 0 x) := by
  simp only [max_def, min_def]
  split_ifs <;> linarith

theorem dasScoreOf_eq_spec (p : Detail) : dasScoreOf p = specDasScore p := by
  unfold dasScoreOf specDasScore
  have h95 : ((95 : ℚ) / 100) = 19 / 20 := by norm_num
  by_cases hs : p.status = []
  · have hc1 : containsSub (jsToLower p.status) "closed".toList = false := by
      rw [hs]; decide
    have hc2 : containsSub (jsToLower p.status) "complete".toList = false := by
      rw [hs]; decide
    have hempty : p.status.isEmpty = true := by rw [hs]; rfl
    simp only [hc1, hc2, hempty, h95, Bool.not_true, Bool.false_and,
      Bool.or_self, if_false, Bool.false_eq_true, false_or, decide_eq_true_eq,
      clamp_comm]
  · have hempty : p.status.isEmpty = false := isEmpty_false_of_ne_nil hs
    by_cases hcc : (containsSub (jsToLower p.status) "closed".toList ||
        containsSub (jsToLower p.status) "complete".toList) = true
    · have hor : containsSub (jsToLower p.status) "closed".toList = true ∨
          containsSub (jsToLower p.status) "complete".toList = true :=
        Bool.or_eq_true _ _ |>.mp hcc
      simp only [hempty, Bool.not_false, Bool.true_and, hcc, if_true, clamp_comm]
      rw [if_pos (by tauto)]
    · have hb : (containsSub (jsToLower p.status) "closed".toList ||
          containsSub (jsToLower p.status) "complete".toList) = false := by
        simpa using hcc
      have hb1 : containsSub (jsToLower p.status) "closed".toList = false :=
        (Bool.or_eq_false_iff.mp hb).1
      have hb2 : containsSub (jsToLower p.status) "complete".toList = false :=
        (Bool.or_eq_false_iff.mp hb).2
      simp only [hempty, Bool.not_false, Bool.true_and, hb, hb1, hb2, h95,
        Bool.or_self, Bool.false_eq_true, false_or, if_false, decide_eq_true_eq,
        clamp_comm]

/-- C5: the per-project DAS+ score is
`1 - |actualHrs/budgetHrs - completionRatio|` clamped to `[0, 1]`, with
the completion ratio forced to `1` exactly when the status contains
"closed" or "complete" case-insensitively or the reported completion is
`≥ 0.95`; and the per-consultant median is the element at index
`⌊n / 2⌋` of the ascending-sorted score list: for the four-project
consultant with scores `0.5, 0.2, 0.9, 0.7` the median is `0.7`, not
the two-middle average `0.6`. -/
theorem das_score_and_median_spec :
    (∀ p : Detail, dasScoreOf p = specDasScore p) ∧
    (analyzeData dasRows emptyFilters cfgNone).dasAnalysis =
      [⟨"Al".toList, 4, 23 / 40, 7 / 10, 3, 1, 3⟩] ∧
    (analyzeData dasRows emptyFilters cfgNone).dasAnalysis.map DASEntry.medianDAS ≠
      [3 / 5] := by
  have heval : (analyzeData dasRows emptyFilters cfgNone).dasAnalysis =
      [⟨"Al".toList, 4, 23 / 40, 7 / 10, 3, 1, 3⟩] := by
    norm_num +decide [analyzeData, pass1, pass1Init, pass2, pass2Init, processRow1,
      acceptedConsultants, acceptedSAs, splitNames, splitComma, normalizeName,
      jsTrim, collapseWS, passesAllowList, isExcluded, nameMatch, jsToLower,
      containsSub, startsWith, updAdd, hasKey, addToSet, consInit, consAdd,
      mkDetail, variance, effectiveSuccessThreshold, mkDASEntry, dasScoreOf,
      sortAsc, insertAsc, toFixed, round_eq, dasRows, dasRow, cfgNone,
      emptyFilters, abs_of_nonneg, abs_of_nonpos, sup_eq_max, max_def, min_def,
      List.getD]
  refine ⟨dasScoreOf_eq_spec, heval, ?_⟩
  rw [heval]
  intro h
  rw [List.map_cons, List.map_nil, List.cons_eq_cons] at h
  have : (7 : ℚ) / 10 = 3 / 5 := h.1
  norm_num at this

/-! ## Missing customer handling -/

/-- Counterexample to C7 as stated: a positive-budget row whose
customer field is missing/empty is NOT excluded from the customer
aggregations — pass 2 substitutes the placeholder `'Unknown'`
(`row['Customer'] || 'Unknown'`) and accumulates the row into the
company customer map under that name. -/
theorem missing_customer_included_as_unknown :
    hasKey (pass2 (3 / 10) [] [noCustomerRow]).company "Unknown".toList = true := by
  norm_num +decide [pass2, pass2Init, processRow2, pass2Guard, effCustomer, jsTrim,
    updAdd, hasKey, noCustomerRow]

/-- C7 (amended): a row with positive budget and a missing/empty
customer field is accumulated into the company customer map under the
substitute name `'Unknown'` (rather than being excluded), and the
customer field never influences consultant or SA aggregation. -/
theorem missing_customer_amended (st : ℚ) (ps : List Str) (s : Pass2State)
    (f : Filters) (row : Row) (hc : row.customer = []) (hb : 0 < row.budgetHrs) :
    hasKey (processRow2 st ps s row).company "Unknown".toList = true ∧
    ∀ c : Str,
      acceptedConsultants f { row with customer := c } =
        acceptedConsultants f row ∧
      acceptedSAs f { row with customer := c } = acceptedSAs f row := by
  constructor
  · have heff : effCustomer row = "Unknown".toList := by
      simp [effCustomer, hc]
    have hg : pass2Guard row = true := by
      rw [pass2Guard, heff]
      have h2 : (jsTrim "Unknown".toList).isEmpty = false := by decide
      rw [h2]
      simp [hb]
    simp only [processRow2, if_pos hg]
    rw [heff, hasKey_updAdd]
    exact Or.inl rfl
  · intro c
    exact ⟨rfl, rfl⟩

/-- Witness for the amended C7 at the concrete empty-customer row. -/
theorem missing_customer_amended_witness :
    hasKey (processRow2 (3 / 10) [] pass2Init noCustomerRow).company
        "Unknown".toList = true ∧
    ∀ c : Str,
      acceptedConsultants emptyFilters { noCustomerRow with customer := c } =
        acceptedConsultants emptyFilters noCustomerRow ∧
      acceptedSAs emptyFilters { noCustomerRow with customer := c } =
        acceptedSAs emptyFilters noCustomerRow :=
  missing_customer_amended (3 / 10) [] pass2Init emptyFilters noCustomerRow rfl
    (by norm_num [noCustomerRow])

/-! ## Zero success-threshold fallback -/

/-- C10: a configured success threshold of `0` (like an absent or null
one) is falsy under `config.thresholds?.success_threshold || 0.3` and
is silently replaced by the default `0.3`, so configuring a threshold
of exactly zero is impossible; the whole analysis run with threshold
`some 0` equals the run with no threshold, and the variance-`0.2`
project is still counted within budget. -/
theorem zero_threshold_fallback :
    (∀ (data : List Row) (f : Filters),
      analyzeData data f cfgZero = analyzeData data f cfgNone) ∧
    effectiveSuccessThreshold cfgZero = 3 / 10 ∧
    (analyzeData [rowAnn] emptyFilters cfgZero).consultants.map
      (fun m => (m.withinBudget, m.overBudget)) = [(1, 0)] := by
  have h1 : effectiveSuccessThreshold cfgZero = 3 / 10 := by
    norm_num [effectiveSuccessThreshold, cfgZero]
  have h2 : effectiveSuccessThreshold cfgNone = 3 / 10 := rfl
  have heq : ∀ (data : List Row) (f : Filters),
      analyzeData data f cfgZero = analyzeData data f cfgNone := by
    intro data f
    simp only [analyzeData, h1, h2]
  refine ⟨heq, h1, ?_⟩
  rw [heq, annConsultants_eq]
  norm_num [mkConsultantMetric]

/-! ## CSV serialization and round-trip -/

theorem parseQuotedBody_append (nm : Str) (h : '"' ∉ nm) (c : Char) (hc : ¬c = '"')
    (r : Str) : parseQuotedBody (nm ++ '"' :: c :: r) = some (nm, c :: r) := by
  induction nm with
  | nil =>
    show parseQuotedBody ('"' :: c :: r) = some ([], c :: r)
    simp [parseQuotedBody, hc]
  | cons a as ih =>
    have ha : ¬a = '"' := fun e => h (List.mem_cons.mpr (Or.inl e.symm))
    have h' : '"' ∉ as := fun hm => h (List.mem_cons_of_mem a hm)
    rw [List.cons_append, parseQuotedBody.eq_def]
    simp [ha, ih h']

theorem upToSep_append (f : Str) (h1 : ',' ∉ f) (h2 : '\n' ∉ f) (c : Char)
    (hc : c = ',' ∨ c = '\n') (r : Str) : upToSep (f ++ c :: r) = (f, c :: r) := by
  induction f with
  | nil => simp only [List.nil_append, upToSep, if_pos hc]
  | cons a as ih =>
    have ha : ¬(a = ',' ∨ a = '\n') := by
      rintro (e | e)
      · exact h1 (List.mem_cons.mpr (Or.inl e.symm))
      · exact h2 (List.mem_cons.mpr (Or.inl e.symm))
    have h1' : ',' ∉ as := fun hm => h1 (List.mem_cons_of_mem a hm)
    have h2' : '\n' ∉ as := fun hm => h2 (List.mem_cons_of_mem a hm)
    rw [List.cons_append]
    simp [upToSep, ha, ih h1' h2']

theorem parseCSVField_quoted (nm : Str) (h : '"' ∉ nm) (c : Char) (hc : ¬c = '"')
    (r : Str) : parseCSVField (csvQuote nm ++ c :: r) = some (nm, c :: r) := by
  have he : csvQuote nm ++ c :: r = '"' :: (nm ++ '"' :: c :: r) := by
    simp [csvQuote]
  rw [he]
  simp only [parseCSVField, if_pos rfl]
  exact parseQuotedBody_append nm h c hc r

theorem parseCSVField_plain (f : Str) (hq : '"' ∉ f) (h1 : ',' ∉ f) (h2 : '\n' ∉ f)
    (c : Char) (hc : c = ',' ∨ c = '\n') (r : Str) :
    parseCSVField (f ++ c :: r) = some (f, c :: r) := by
  cases f with
  | nil =>
    have hcq : ¬c = '"' := by rcases hc with rfl | rfl <;> decide
    simp only [List.nil_append, parseCSVField, if_neg hcq, upToSep, if_pos hc]
  | cons a as =>
    have ha : ¬a = '"' := fun e => hq (List.mem_cons.mpr (Or.inl e.symm))
    simp only [List.cons_append, parseCSVField, if_neg ha]
    rw [← List.cons_append, upToSep_append (a :: as) h1 h2 c hc r]

theorem parseCSVRecordAux_joinPlain (fs : List Str) (hne : fs ≠ [])
    (h : ∀ f ∈ fs, PlainField f) (tail : Str) :
    ∀ n, fs.length ≤ n →
      parseCSVRecordAux n (joinPlain fs ++ tail) = some (fs, tail) := by
  induction fs with
  | nil => exact absurd rfl hne
  | cons f fs ih =>
    intro n hn
    obtain ⟨hf1, hf2, hf3⟩ := h f (List.mem_cons_self f fs)
    cases n with
    | zero => simp at hn
    | succ m =>
      cases fs with
      | nil =>
        have hjoin : joinPlain [f] ++ tail = f ++ '\n' :: tail := by
          simp [joinPlain]
        rw [hjoin]
        simp only [parseCSVRecordAux]
        rw [parseCSVField_plain f hf2 hf1 hf3 '\n' (Or.inr rfl) tail]
        simp
      | cons g gs =>
        have hjoin : joinPlain (f :: g :: gs) ++ tail =
            f ++ ',' :: (joinPlain (g :: gs) ++ tail) := by
          simp [joinPlain]
        rw [hjoin]
        simp only [parseCSVRecordAux]
        rw [parseCSVField_plain f hf2 hf1 hf3 ',' (Or.inl rfl) _]
        have hih := ih (by simp) (fun x hx => h x (List.mem_cons_of_mem f hx)) m
          (by simp only [List.length_cons] at hn ⊢; omega)
        simp +decide [hih]

theorem parseCSVRecordAux_line (r : ConsultantCSVRow) (hq : '"' ∉ r.name)
    (hp1 : PlainField r.projects) (hp2 : PlainField r.hours)
    (hp3 : PlainField r.efficiencyScore) (hp4 : PlainField r.successRate)
    (hp5 : PlainField r.withinBudget) (hp6 : PlainField r.overBudget)
    (tail : Str) :
    ∀ n, 7 ≤ n →
      parseCSVRecordAux n (consultantCSVLine r ++ tail) =
        some ([r.name, r.projects, r.hours, r.efficiencyScore, r.successRate,
               r.withinBudget, r.overBudget], tail) := by
  intro n hn
  obtain ⟨m, rfl⟩ : ∃ m, n = m + 1 := ⟨n - 1, by omega⟩
  have hline : consultantCSVLine r ++ tail =
      csvQuote r.name ++ ',' ::
        (joinPlain [r.projects, r.hours, r.efficiencyScore, r.successRate,
                    r.withinBudget, r.overBudget] ++ tail) := by
    simp [consultantCSVLine]
  rw [hline]
  simp only [parseCSVRecordAux]
  rw [parseCSVField_quoted r.name hq ',' (by decide) _]
  have hplains : ∀ f ∈ [r.projects, r.hours, r.efficiencyScore, r.successRate,
      r.withinBudget, r.overBudget], PlainField f := by
    intro f hf
    simp only [List.mem_cons, List.not_mem_nil, or_false] at hf
    rcases hf with rfl | rfl | rfl | rfl | rfl | rfl <;> assumption
  have hrec := parseCSVRecordAux_joinPlain
    [r.projects, r.hours, r.efficiencyScore, r.successRate, r.withinBudget,
     r.overBudget] (by simp) hplains tail m (by simp; omega)
  simp +decide [hrec]

theorem joinPlain_length_ge (fs : List Str) : fs.length ≤ (joinPlain fs).length := by
  induction fs with
  | nil => simp [joinPlain]
  | cons f fs ih =>
    cases fs with
    | nil => simp [joinPlain]
    | cons g gs =>
      simp only [joinPlain, List.length_append, List.length_cons] at *
      omega

theorem parseCSVRecord_line (r : ConsultantCSVRow) (hq : '"' ∉ r.name)
    (hp1 : PlainField r.projects) (hp2 : PlainField r.hours)
    (hp3 : PlainField r.efficiencyScore) (hp4 : PlainField r.successRate)
    (hp5 : PlainField r.withinBudget) (hp6 : PlainField r.overBudget) :
    parseCSVRecord (consultantCSVLine r) =
      some ([r.name, r.projects, r.hours, r.efficiencyScore, r.successRate,
             r.withinBudget, r.overBudget], []) := by
  have h6 : 6 ≤ (joinPlain [r.projects, r.hours, r.efficiencyScore, r.successRate,
      r.withinBudget, r.overBudget]).length := by
    simpa using joinPlain_length_ge [r.projects, r.hours, r.efficiencyScore,
      r.successRate, r.withinBudget, r.overBudget]
  have hlen9 : 9 ≤ (consultantCSVLine r).length := by
    simp only [consultantCSVLine, csvQuote, List.length_append, List.length_cons]
    omega
  rw [parseCSVRecord]
  have happ := parseCSVRecordAux_line r hq hp1 hp2 hp3 hp4 hp5 hp6 []
    ((consultantCSVLine r).length + 1) (by omega)
  rw [List.append_nil] at happ
  exact happ

set_option maxRecDepth 40000 in
/-- Counterexample to C8 as stated: the serializer quotes the name
field but never doubles internal double quotes
(`csv += "${row.name}",...`), so a 2-row consultant report whose first
name contains a comma and embedded double quotes produces text that
standard CSV parsing rejects — the round-trip fails instead of
reproducing the fields. -/
theorem csv_quote_name_breaks_roundtrip :
    parseCSV (generateCSVConsultants [badCSVRow, goodCSVRow2]) = none ∧
    ',' ∈ badCSVRow.name ∧ '"' ∈ badCSVRow.name := by decide

set_option maxRecDepth 40000 in
/-- C8 (amended): every field of a consultants line is either the
unconditionally quoted name or a rendered number; re-parsing with
standard CSV quoting rules reproduces the original field values for
every row whose name contains no double-quote character (commas in
names are safe, since the name is always quoted; internal quotes are
not doubled, so names containing them do not survive).  A concrete
2-row report with a comma-containing name round-trips exactly. -/
theorem csv_roundtrip_amended :
    (∀ r : ConsultantCSVRow, '"' ∉ r.name →
      PlainField r.projects → PlainField r.hours → PlainField r.efficiencyScore →
      PlainField r.successRate → PlainField r.withinBudget →
      PlainField r.overBudget →
      parseCSVRecord (consultantCSVLine r) =
        some ([r.name, r.projects, r.hours, r.efficiencyScore, r.successRate,
               r.withinBudget, r.overBudget], [])) ∧
    parseCSV (generateCSVConsultants [goodCSVRow1, goodCSVRow2]) =
      some [["Consultant".toList, "Projects".toList, "Hours".toList,
             "Efficiency %".toList, "Success Rate %".toList,
             "Within Budget".toList, "Over Budget".toList],
            ["Smith, John".toList, "3".toList, "10".toList, "100.0".toList,
             "100.0".toList, "3".toList, "0".toList],
            ["Ann Lee".toList, "1".toList, "5.5".toList, "0.0".toList,
             "0.0".toList, "0".toList, "1".toList]] := by
  refine ⟨fun r hq hp1 hp2 hp3 hp4 hp5 hp6 =>
    parseCSVRecord_line r hq hp1 hp2 hp3 hp4 hp5 hp6, ?_⟩
  decide

set_option maxRecDepth 40000 in
/-- Witness for the amended C8 at the comma-containing first row. -/
theorem csv_roundtrip_amended_witness :
    parseCSVRecord (consultantCSVLine goodCSVRow1) =
      some ([goodCSVRow1.name, goodCSVRow1.projects, goodCSVRow1.hours,
             goodCSVRow1.efficiencyScore, goodCSVRow1.successRate,
             goodCSVRow1.withinBudget, goodCSVRow1.overBudget], []) :=
  csv_roundtrip_amended.1 goodCSVRow1 (by decide) (by decide) (by decide)
    (by decide) (by decide) (by decide) (by decide)

end Financials
